import Mathlib

/-!
Verification of the matching engine of `script.js`: a backtracking checker
for the configurable regular expression `[(a+b)*aa(b+ab)(aa+bb)*]*`.

Input strings are embedded as `List Char`.  JavaScript positions are `Nat`;
the failure sentinel `-1` returned by the token matchers is embedded as
`Option Nat` with `none` standing for `-1`.  `String.prototype.substring`
clamps its arguments to the string length; `List.drop`/`List.take` have the
same clamping behaviour, so `getSubstring` below is a faithful model at the
call sites that occur in the program (which never pass `start > end`).

The two loops of the program (`matchPatternsRecursively` and the greedy
`while` loop of `canMatchRepeatableSequences`) are embedded with an explicit
fuel argument so that every definition is executable by kernel reduction;
the fuel supplied by the wrappers is proved sufficient (`matchRecF_stable`,
`repeatLoopF_stable`), which is the formal content of the termination claim.
-/

namespace Automata

/-- The three star toggles of `REGEX_CONFIG.STAR_CONFIG`. -/
structure StarConfig where
  ALPHABET_STAR : Bool
  REPEATABLE_STAR : Bool
  PATTERN_STAR : Bool
deriving DecidableEq, Repr

/-- The grammar configuration object `REGEX_CONFIG` of `script.js`
(tokens are embedded as `List Char`). -/
structure RegexConfig where
  ALPHABET : List Char
  REQUIRED_SEQUENCE : List (List Char)
  ALTERNATIVE_OPTIONS : List (List Char)
  REPEATABLE_SEQUENCES : List (List Char)
  STAR_CONFIG : StarConfig
deriving DecidableEq, Repr

/-- The default configuration literal of `script.js`:
alphabet `{a,b}`, required `{aa}`, alternatives `{b,ab}`,
repeatable `{aa,bb}`, all three stars enabled. -/
def REGEX_CONFIG : RegexConfig :=
  { ALPHABET := ['a', 'b']
    REQUIRED_SEQUENCE := [['a', 'a']]
    ALTERNATIVE_OPTIONS := [['b'], ['a', 'b']]
    REPEATABLE_SEQUENCES := [['a', 'a'], ['b', 'b']]
    STAR_CONFIG := { ALPHABET_STAR := true, REPEATABLE_STAR := true, PATTERN_STAR := true } }

/-- `Math.min(...l.map(seq => seq.length))`, with 0 for the empty list
(the program only evaluates the spread on non-empty lists). -/
def shortestLength (l : List (List Char)) : Nat :=
  match l.map List.length with
  | [] => 0
  | n :: ns => ns.foldl Nat.min n

/-- `getMinPatternLength` of `script.js`: conditional sum of the four
segment minima, floored at 1 by `Math.max(minLength, 1)`. -/
def getMinPatternLength (cfg : RegexConfig) : Nat :=
  let m1 : Nat := if cfg.STAR_CONFIG.ALPHABET_STAR then 0 else 1
  let m2 : Nat :=
    if cfg.REQUIRED_SEQUENCE.length > 0 then shortestLength cfg.REQUIRED_SEQUENCE else 0
  let m3 : Nat :=
    if cfg.ALTERNATIVE_OPTIONS.length > 0 then shortestLength cfg.ALTERNATIVE_OPTIONS else 0
  let m4 : Nat :=
    if cfg.STAR_CONFIG.REPEATABLE_STAR then 0
    else if cfg.REPEATABLE_SEQUENCES.length > 0 then shortestLength cfg.REPEATABLE_SEQUENCES
    else 0
  Nat.max (m1 + m2 + m3 + m4) 1

/-- `isValidAlphabetChar` of `script.js`. -/
def isValidAlphabetChar (cfg : RegexConfig) (c : Char) : Bool :=
  if cfg.ALPHABET.isEmpty then false else cfg.ALPHABET.contains c

/-- `validateInput` of `script.js`: with an empty alphabet only the empty
string validates, otherwise every character must be in the alphabet. -/
def validateInput (cfg : RegexConfig) (s : List Char) : Bool :=
  if cfg.ALPHABET.isEmpty then s.isEmpty
  else s.all (fun c => isValidAlphabetChar cfg c)

/-- `getSubstring` of `script.js` (`str.substring(start, end)` with the
clamping behaviour of `drop`/`take`). -/
def getSubstring (s : List Char) (start end_ : Nat) : List Char :=
  (s.drop start).take (end_ - start)

/-- The literal-match test used by every token matcher:
`getSubstring(str, pos, pos + token.length) === token`. -/
def sliceMatches (s : List Char) (pos : Nat) (t : List Char) : Bool :=
  decide (getSubstring s pos (pos + t.length) = t)

/-- Stable insertion of `x` into a list already sorted by descending
length: `x` is placed before the first element of smaller length. -/
def insertDesc (x : List Char) : List (List Char) → List (List Char)
  | [] => [x]
  | y :: ys => if x.length ≥ y.length then x :: y :: ys else y :: insertDesc x ys

/-- `[...tokens].sort((a, b) => b.length - a.length)` of `script.js`:
a stable sort by descending length (JavaScript `Array.prototype.sort`
is stable, and a stable sort by a total preorder is unique, so this
insertion sort computes the same list). -/
def sortByLenDesc : List (List Char) → List (List Char)
  | [] => []
  | x :: xs => insertDesc x (sortByLenDesc xs)

/-- `canMatchAlphabetStar` of `script.js`: segment 1, `(a+b)*` or `(a+b)`. -/
def canMatchAlphabetStar (cfg : RegexConfig) (s : List Char) (start len : Nat) : Bool :=
  if !cfg.STAR_CONFIG.ALPHABET_STAR then
    if len ≠ 1 then false
    else
      match getSubstring s start (start + 1) with
      | [c] => isValidAlphabetChar cfg c
      | _ => false
  else if len = 0 then true
  else (getSubstring s start (start + len)).all (fun c => isValidAlphabetChar cfg c)

/-- The shared shape of `canMatchRequiredSequence` and `canMatchAlternatives`:
empty collection returns the position unchanged; otherwise the collection is
sorted longest-first and the first literally matching token is consumed.
`none` embeds the `-1` sentinel; a zero-length match is falsy in
`matchedSequence ? pos + matchedSequence.length : -1` and therefore also
yields the sentinel. -/
def tokenStep (tokens : List (List Char)) (s : List Char) (pos : Nat) : Option Nat :=
  if tokens.isEmpty then some pos
  else
    match (sortByLenDesc tokens).find? (fun t => sliceMatches s pos t) with
    | some t => if t.isEmpty then none else some (pos + t.length)
    | none => none

/-- `canMatchRequiredSequence` of `script.js`: segment 2 over
`REQUIRED_SEQUENCE`. -/
def canMatchRequiredSequence (cfg : RegexConfig) (s : List Char) (pos : Nat) : Option Nat :=
  tokenStep cfg.REQUIRED_SEQUENCE s pos

/-- `canMatchAlternatives` of `script.js`: segment 3 over
`ALTERNATIVE_OPTIONS`. -/
def canMatchAlternatives (cfg : RegexConfig) (s : List Char) (pos : Nat) : Option Nat :=
  tokenStep cfg.ALTERNATIVE_OPTIONS s pos

/-- The greedy `while (pos < end)` loop of `canMatchRepeatableSequences`,
with explicit fuel.  At each position the longest token that fits within
`end_` and matches literally is consumed; an empty-token match is falsy in
`if (matchedSequence)` and aborts with `false`.  The wrapper supplies fuel
`end_ - start`, proved sufficient in `repeatLoopF_stable`. -/
def repeatLoopF (sorted : List (List Char)) (s : List Char) (end_ : Nat) :
    Nat → Nat → Bool
  | 0, pos => decide (end_ ≤ pos)
  | fuel + 1, pos =>
    if pos < end_ then
      match sorted.find? (fun t => decide (pos + t.length ≤ end_) && sliceMatches s pos t) with
      | some t => if t.isEmpty then false else repeatLoopF sorted s end_ fuel (pos + t.length)
      | none => false
    else true

/-- `canMatchRepeatableSequences` of `script.js`: segment 4, `(aa+bb)*` or
`(aa+bb)`.  Empty collection: succeeds only if `start === end`.  Without the
star: exactly one token must span `[start, end)`.  With the star: the greedy
longest-first loop must reach `end`. -/
def canMatchRepeatableSequences (cfg : RegexConfig) (s : List Char) (start end_ : Nat) : Bool :=
  if cfg.REPEATABLE_SEQUENCES.isEmpty then decide (start = end_)
  else
    let sorted := sortByLenDesc cfg.REPEATABLE_SEQUENCES
    if !cfg.STAR_CONFIG.REPEATABLE_STAR then
      (sorted.find? (fun t => decide (start + t.length = end_) && sliceMatches s start t)).isSome
    else repeatLoopF sorted s end_ (end_ - start) start

/-- The candidate lengths tried for segment 1 in
`canMatchSinglePatternExactly`: the single value `[1]` without the star,
otherwise `0, 1, ..., patternLength - minLength` in ascending order
(`minOtherParts` equals `getMinPatternLength` in the starred branch, and
`Nat` subtraction models `Math.max(0, ...)`). -/
def alphabetLengthRange (cfg : RegexConfig) (patternLength : Nat) : List Nat :=
  if !cfg.STAR_CONFIG.ALPHABET_STAR then [1]
  else List.range (patternLength - getMinPatternLength cfg + 1)

/-- `canMatchSinglePatternExactly` of `script.js`: one inner-pattern
repetition over `[start, end)`.  Note that segments 2 and 3 read the full
string and are not bounded by `end_`, and segment 4 is vacuously true as
soon as its start position is `≥ end_`. -/
def canMatchSinglePatternExactly (cfg : RegexConfig) (s : List Char) (start end_ : Nat) : Bool :=
  let patternLength := end_ - start
  if patternLength < getMinPatternLength cfg then false
  else
    (alphabetLengthRange cfg patternLength).any fun alphabetLength =>
      canMatchAlphabetStar cfg s start alphabetLength &&
        match canMatchRequiredSequence cfg s (start + alphabetLength) with
        | none => false
        | some p2 =>
          match canMatchAlternatives cfg s p2 with
          | none => false
          | some p3 => canMatchRepeatableSequences cfg s p3 end_

/-- The candidate end positions tried by `matchPatternsRecursively`:
`startPos + minPatternLength, ..., str.length` in ascending order
(`Array.from({length: str.length - startPos - minPatternLength + 1}, ...)`,
where a non-positive length yields the empty list, as `Nat` subtraction
does here). -/
def possibleEndPositions (cfg : RegexConfig) (s : List Char) (startPos : Nat) : List Nat :=
  (List.range (s.length - startPos + 1 - getMinPatternLength cfg)).map
    (fun i => startPos + getMinPatternLength cfg + i)

/-- `matchPatternsRecursively` of `script.js` with explicit fuel: success
when the cursor reached the end of the string, otherwise some candidate end
position must both match one inner pattern and let the rest match
recursively.  The wrapper supplies fuel `s.length - startPos`, proved
sufficient in `matchRecF_stable`. -/
def matchRecF (cfg : RegexConfig) (s : List Char) : Nat → Nat → Bool
  | 0, startPos => decide (s.length ≤ startPos)
  | fuel + 1, startPos =>
    if s.length ≤ startPos then true
    else
      (possibleEndPositions cfg s startPos).any fun endPos =>
        canMatchSinglePatternExactly cfg s startPos endPos && matchRecF cfg s fuel endPos

/-- `matchPatternsRecursively` of `script.js` (the fuel `s.length - startPos`
bounds the recursion depth: every recursive call strictly increases the
cursor, since `getMinPatternLength ≥ 1`). -/
def matchPatternsRecursively (cfg : RegexConfig) (s : List Char) (startPos : Nat) : Bool :=
  matchRecF cfg s (s.length - startPos) startPos

/-- `matchPattern` of `script.js`: the entry point.  Validation failure is
`false`; without the outer star the empty string fails and otherwise the
whole string must be one inner pattern; with the outer star the empty
string succeeds and otherwise the recursive driver runs. -/
def matchPattern (cfg : RegexConfig) (s : List Char) : Bool :=
  if !validateInput cfg s then false
  else if !cfg.STAR_CONFIG.PATTERN_STAR then
    if s.isEmpty then false else canMatchSinglePatternExactly cfg s 0 s.length
  else if s.isEmpty then true
  else matchPatternsRecursively cfg s 0

/-! ### Helper lemmas -/

theorem one_le_getMinPatternLength (cfg : RegexConfig) : 1 ≤ getMinPatternLength cfg :=
  Nat.le_max_right _ 1

theorem anyCongr {α : Type} {l : List α} {p q : α → Bool}
    (h : ∀ a ∈ l, p a = q a) : l.any p = l.any q := by
  induction l with
  | nil => rfl
  | cons x xs ih =>
    simp only [List.any_cons, h x (by simp)]
    rw [ih (fun a ha => h a (by simp [ha]))]

theorem mem_possibleEndPositions (cfg : RegexConfig) (s : List Char) (startPos e : Nat)
    (he : e ∈ possibleEndPositions cfg s startPos) :
    startPos + getMinPatternLength cfg ≤ e := by
  simp only [possibleEndPositions, List.mem_map, List.mem_range] at he
  obtain ⟨i, _, rfl⟩ := he
  omega

/-- The result of the whole-string search does not depend on the fuel, as
soon as the fuel is at least `s.length - startPos`: the fuel supplied by
`matchPatternsRecursively` is sufficient and the recursion terminates. -/
theorem matchRecF_stable (cfg : RegexConfig) (s : List Char) :
    ∀ fuel1 fuel2 startPos, s.length - startPos ≤ fuel1 → s.length - startPos ≤ fuel2 →
      matchRecF cfg s fuel1 startPos = matchRecF cfg s fuel2 startPos := by
  intro fuel1
  induction fuel1 with
  | zero =>
    intro fuel2 startPos h1 h2
    have hle : s.length ≤ startPos := by omega
    cases fuel2 with
    | zero => rfl
    | succ g => simp [matchRecF, hle]
  | succ f ih =>
    intro fuel2 startPos h1 h2
    by_cases hle : s.length ≤ startPos
    · cases fuel2 with
      | zero => simp [matchRecF, hle]
      | succ g => simp [matchRecF, hle]
    · have hlt : startPos < s.length := by omega
      cases fuel2 with
      | zero => omega
      | succ g =>
        simp only [matchRecF, if_neg hle]
        apply anyCongr
        intro e he
        have h3 := mem_possibleEndPositions cfg s startPos e he
        have h4 := one_le_getMinPatternLength cfg
        rw [ih g e (by omega) (by omega)]

/-- The result of the greedy repeatable-token loop does not depend on the
fuel, as soon as the fuel is at least `end_ - pos`: the fuel supplied by
`canMatchRepeatableSequences` is sufficient and the loop terminates (for
arbitrary token lists, including lists containing the empty token, since an
empty-token match aborts the loop). -/
theorem repeatLoopF_stable (sorted : List (List Char)) (s : List Char) (end_ : Nat) :
    ∀ fuel1 fuel2 pos, end_ - pos ≤ fuel1 → end_ - pos ≤ fuel2 →
      repeatLoopF sorted s end_ fuel1 pos = repeatLoopF sorted s end_ fuel2 pos := by
  intro fuel1
  induction fuel1 with
  | zero =>
    intro fuel2 pos h1 h2
    have hle : end_ ≤ pos := by omega
    cases fuel2 with
    | zero => rfl
    | succ g => simp [repeatLoopF, hle, Nat.not_lt.mpr hle]
  | succ f ih =>
    intro fuel2 pos h1 h2
    by_cases hlt : pos < end_
    · cases fuel2 with
      | zero => omega
      | succ g =>
        simp only [repeatLoopF, if_pos hlt]
        cases hf : sorted.find? (fun t => decide (pos + t.length ≤ end_) && sliceMatches s pos t) with
        | none => rfl
        | some t =>
          cases t with
          | nil => simp
          | cons c cs =>
            have hlen : (c :: cs).length = cs.length + 1 := rfl
            simp only [List.isEmpty_cons, Bool.false_eq_true, if_false]
            exact ih g (pos + (c :: cs).length) (by omega) (by omega)
    · have hle : end_ ≤ pos := by omega
      cases fuel2 with
      | zero => simp [repeatLoopF, hle, Nat.not_lt.mpr hle]
      | succ g => simp [repeatLoopF, Nat.not_lt.mpr hle]

theorem mem_insertDesc {x a : List Char} : ∀ {l : List (List Char)},
    a ∈ insertDesc x l ↔ a = x ∨ a ∈ l := by
  intro l
  induction l with
  | nil => simp [insertDesc]
  | cons y ys ih =>
    simp only [insertDesc]
    by_cases h : x.length ≥ y.length
    · simp [h]
    · simp only [if_neg h, List.mem_cons, ih]
      tauto

theorem mem_sortByLenDesc {a : List Char} : ∀ {l : List (List Char)},
    a ∈ sortByLenDesc l ↔ a ∈ l := by
  intro l
  induction l with
  | nil => simp [sortByLenDesc]
  | cons x xs ih => simp [sortByLenDesc, mem_insertDesc, ih]

theorem pairwise_insertDesc {x : List Char} : ∀ {l : List (List Char)},
    l.Pairwise (fun a b => b.length ≤ a.length) →
    (insertDesc x l).Pairwise (fun a b => b.length ≤ a.length) := by
  intro l
  induction l with
  | nil => intro _; simp [insertDesc]
  | cons y ys ih =>
    intro hp
    rw [List.pairwise_cons] at hp
    obtain ⟨hy, hys⟩ := hp
    simp only [insertDesc]
    by_cases h : x.length ≥ y.length
    · rw [if_pos h]
      refine List.pairwise_cons.mpr ⟨?_, List.pairwise_cons.mpr ⟨hy, hys⟩⟩
      intro b hb
      rcases List.mem_cons.mp hb with rfl | hb
      · exact h
      · exact le_trans (hy b hb) h
    · rw [if_neg h]
      refine List.pairwise_cons.mpr ⟨?_, ih hys⟩
      intro b hb
      rcases mem_insertDesc.mp hb with rfl | hb
      · omega
      · exact hy b hb

theorem pairwise_sortByLenDesc (l : List (List Char)) :
    (sortByLenDesc l).Pairwise (fun a b => b.length ≤ a.length) := by
  induction l with
  | nil => simp [sortByLenDesc]
  | cons x xs ih => exact pairwise_insertDesc ih

/-- In a list sorted by descending length, `find?` returns a satisfying
element of maximal length among all satisfying elements. -/
theorem find?_isLongest {p : List Char → Bool} :
    ∀ {l : List (List Char)}, l.Pairwise (fun a b => b.length ≤ a.length) →
    ∀ {t : List Char}, l.find? p = some t →
    ∀ u ∈ l, p u = true → u.length ≤ t.length := by
  intro l
  induction l with
  | nil => intro _ t ht; simp [List.find?] at ht
  | cons y ys ih =>
    intro hp t hf u hu hpu
    rw [List.pairwise_cons] at hp
    obtain ⟨hy, hys⟩ := hp
    by_cases hpy : p y = true
    · rw [List.find?_cons_of_pos _ hpy] at hf
      cases hf
      rcases List.mem_cons.mp hu with rfl | hu
      · exact le_refl _
      · exact hy u hu
    · rw [List.find?_cons_of_neg _ (by simpa using hpy)] at hf
      rcases List.mem_cons.mp hu with rfl | hu
      · exact absurd hpu hpy
      · exact ih hys hf u hu hpu

theorem tokenStep_of_empty (tokens : List (List Char)) (s : List Char) (pos : Nat)
    (h : tokens = []) : tokenStep tokens s pos = some pos := by
  subst h; rfl

theorem tokenStep_of_no_match {tokens : List (List Char)} {s : List Char} {pos : Nat}
    (hne : tokens ≠ [])
    (h : ∀ t ∈ tokens, sliceMatches s pos t = false) : tokenStep tokens s pos = none := by
  have hie : tokens.isEmpty = false := by
    cases tokens with
    | nil => exact absurd rfl hne
    | cons _ _ => rfl
  have hfind : (sortByLenDesc tokens).find? (fun t => sliceMatches s pos t) = none := by
    apply List.find?_eq_none.mpr
    intro t ht
    simp [h t (mem_sortByLenDesc.mp ht)]
  simp [tokenStep, hie, hfind]

theorem tokenStep_longest {tokens : List (List Char)} {s : List Char} {pos : Nat}
    {t0 : List Char} (hall : ∀ t ∈ tokens, t ≠ [])
    (ht0 : t0 ∈ tokens) (hm : sliceMatches s pos t0 = true) :
    ∃ u ∈ tokens, sliceMatches s pos u = true ∧
      (∀ v ∈ tokens, sliceMatches s pos v = true → v.length ≤ u.length) ∧
      tokenStep tokens s pos = some (pos + u.length) := by
  have hie : tokens.isEmpty = false := by
    cases tokens with
    | nil => simp at ht0
    | cons _ _ => rfl
  cases hfind : (sortByLenDesc tokens).find? (fun t => sliceMatches s pos t) with
  | none =>
    exfalso
    have := List.find?_eq_none.mp hfind t0 (mem_sortByLenDesc.mpr ht0)
    simp [hm] at this
  | some u =>
    have hu_mem : u ∈ tokens := mem_sortByLenDesc.mp (List.mem_of_find?_eq_some hfind)
    have hu_match : sliceMatches s pos u = true := by
      simpa using List.find?_some hfind
    have hu_ie : u.isEmpty = false := by
      cases u with
      | nil => exact absurd rfl (hall [] hu_mem)
      | cons _ _ => rfl
    refine ⟨u, hu_mem, hu_match, ?_, ?_⟩
    · intro v hv hvm
      exact find?_isLongest (pairwise_sortByLenDesc tokens) hfind v (mem_sortByLenDesc.mpr hv) hvm
    · simp [tokenStep, hie, hfind, hu_ie]

/-! ### Spec-side comparison definitions and variant configurations -/

/-- Follows the spec's words for the minimum-length calculator (§4.1): the
sum of (a) 0 if `freeRunStar` else 1, (b) the shortest required token
(0 if empty), (c) the shortest alternative token (0 if empty), (d) 0 if
`pairRunStar` else the shortest repeatable token (0 if empty), floored
at 1.  To be compared with `getMinPatternLength`. -/
def getMinPatternLengthSpec (cfg : RegexConfig) : Nat :=
  Nat.max 1
    ((if cfg.STAR_CONFIG.ALPHABET_STAR then 0 else 1)
      + shortestLength cfg.REQUIRED_SEQUENCE
      + shortestLength cfg.ALTERNATIVE_OPTIONS
      + (if cfg.STAR_CONFIG.REPEATABLE_STAR then 0 else shortestLength cfg.REPEATABLE_SEQUENCES))

/-- Follows the words of claim C6: "the minimum combined length of the other
three segments" — segments 2 (required), 3 (alternative) and 4 (repeatable,
0 when starred), with no floor.  To be compared with the bound actually used
by `alphabetLengthRange`. -/
def minOtherThreeSegments (cfg : RegexConfig) : Nat :=
  shortestLength cfg.REQUIRED_SEQUENCE + shortestLength cfg.ALTERNATIVE_OPTIONS +
    (if cfg.STAR_CONFIG.REPEATABLE_STAR then 0 else shortestLength cfg.REPEATABLE_SEQUENCES)

/-- Follows the words of claim C3: one inner-pattern repetition that
consumes exactly the characters of `[start, end)` — the same pipeline as
`canMatchSinglePatternExactly` but additionally requiring every segment
boundary to stay within `end_`, so that the four segments consume the slice
with no leftover and never touch a character at or beyond `end_`. -/
def canMatchSinglePatternWithinSlice (cfg : RegexConfig) (s : List Char) (start end_ : Nat) :
    Bool :=
  let patternLength := end_ - start
  if patternLength < getMinPatternLength cfg then false
  else
    (alphabetLengthRange cfg patternLength).any fun alphabetLength =>
      decide (start + alphabetLength ≤ end_) &&
        canMatchAlphabetStar cfg s start alphabetLength &&
        match canMatchRequiredSequence cfg s (start + alphabetLength) with
        | none => false
        | some p2 =>
          decide (p2 ≤ end_) &&
            match canMatchAlternatives cfg s p2 with
            | none => false
            | some p3 => decide (p3 ≤ end_) && canMatchRepeatableSequences cfg s p3 end_

/-- The default configuration with the outer star (`PATTERN_STAR`)
forced `false`, as in claim C2. -/
def cfgNoOuterStar : RegexConfig :=
  { REGEX_CONFIG with
    STAR_CONFIG := { REGEX_CONFIG.STAR_CONFIG with PATTERN_STAR := false } }

/-- A degenerate configuration: no required tokens, no alternative tokens,
repeatable `{aa}` with all stars enabled.  The combined minimum of the
other three segments is 0, but `getMinPatternLength` is floored at 1. -/
def cfgDegen : RegexConfig :=
  { REGEX_CONFIG with
    REQUIRED_SEQUENCE := []
    ALTERNATIVE_OPTIONS := []
    REPEATABLE_SEQUENCES := [['a', 'a']] }

/-- The default configuration with a zero-length token added to
`REPEATABLE_SEQUENCES`, as in claim C9. -/
def cfgEmptyRepeat : RegexConfig :=
  { REGEX_CONFIG with REPEATABLE_SEQUENCES := [['a', 'a'], ['b', 'b'], []] }

theorem ite_shortestLength (l : List (List Char)) :
    (if l.length > 0 then shortestLength l else 0) = shortestLength l := by
  cases l with
  | nil => simp [shortestLength]
  | cons x xs => simp

/-! ### Claims -/

/-- Claim C1: with the default configuration, `matchPattern` returns `true`
for `""`, `"aab"`, `"aaab"`, `"baab"`, `"aabaab"`, `"aabaabb"` and `false`
for `"ab"`, `"aa"`, `"abb"`, `"aba"`, `"bab"`. -/
theorem c1_default_examples :
    matchPattern REGEX_CONFIG [] = true ∧
    matchPattern REGEX_CONFIG ['a', 'a', 'b'] = true ∧
    matchPattern REGEX_CONFIG ['a', 'a', 'a', 'b'] = true ∧
    matchPattern REGEX_CONFIG ['b', 'a', 'a', 'b'] = true ∧
    matchPattern REGEX_CONFIG ['a', 'a', 'b', 'a', 'a', 'b'] = true ∧
    matchPattern REGEX_CONFIG ['a', 'a', 'b', 'a', 'a', 'b', 'b'] = true ∧
    matchPattern REGEX_CONFIG ['a', 'b'] = false ∧
    matchPattern REGEX_CONFIG ['a', 'a'] = false ∧
    matchPattern REGEX_CONFIG ['a', 'b', 'b'] = false ∧
    matchPattern REGEX_CONFIG ['a', 'b', 'a'] = false ∧
    matchPattern REGEX_CONFIG ['b', 'a', 'b'] = false := by
  decide

/-- Counterexample to claim C2: with `PATTERN_STAR` forced `false`,
`matchPattern "aabaab"` is `true`, not `false` as claimed — the single
inner pattern already matches, with free-run segment `"aab"`, required
segment `"aa"` and alternative segment `"b"`. -/
theorem c2_counterexample :
    matchPattern cfgNoOuterStar ['a', 'a', 'b', 'a', 'a', 'b'] = true := by
  decide

/-- Claim C2 as amended: with `PATTERN_STAR` forced `false`,
`matchPattern ""` is `false`, `matchPattern "aab"` is `true`, and
`matchPattern "aabaab"` is `true` (the free-run segment `(a+b)*` can
consume the prefix `"aab"`, so one repetition suffices). -/
theorem c2_amended_examples :
    matchPattern cfgNoOuterStar [] = false ∧
    matchPattern cfgNoOuterStar ['a', 'a', 'b'] = true ∧
    matchPattern cfgNoOuterStar ['a', 'a', 'b', 'a', 'a', 'b'] = true := by
  decide

/-- Claim C4: for strings over the default alphabet, both loops of the
matcher reach their result in finitely many steps — formally, the result of
`matchRecF` is already stable at the fuel supplied by
`matchPatternsRecursively` (any fuel of at least `s.length - startPos`
gives the same answer), and likewise the greedy repeatable-token loop is
stable at fuel `end_ - pos`. -/
theorem c4_termination (s : List Char)
    (_hs : s.all (fun c => c ∈ REGEX_CONFIG.ALPHABET) = true)
    (startPos fuel : Nat) (hfuel : s.length - startPos ≤ fuel) :
    matchRecF REGEX_CONFIG s fuel startPos = matchPatternsRecursively REGEX_CONFIG s startPos ∧
    (∀ pos end_ fuel2 : Nat, end_ - pos ≤ fuel2 →
      repeatLoopF (sortByLenDesc REGEX_CONFIG.REPEATABLE_SEQUENCES) s end_ fuel2 pos =
        repeatLoopF (sortByLenDesc REGEX_CONFIG.REPEATABLE_SEQUENCES) s end_ (end_ - pos) pos) := by
  constructor
  · simp only [matchPatternsRecursively]
    exact matchRecF_stable REGEX_CONFIG s fuel (s.length - startPos) startPos hfuel (le_refl _)
  · intro pos end_ fuel2 h2
    exact repeatLoopF_stable _ s end_ fuel2 (end_ - pos) pos h2 (le_refl _)

theorem c4_termination_witness :
    matchRecF REGEX_CONFIG ['a', 'a', 'b'] 10 0 =
      matchPatternsRecursively REGEX_CONFIG ['a', 'a', 'b'] 0 :=
  (c4_termination ['a', 'a', 'b'] (by decide) 0 10 (by decide)).1

/-- Claim C5: `getMinPatternLength` computes exactly the spec's formula
(`getMinPatternLengthSpec`); every slice shorter than it is rejected by the
single-repetition matcher without search; and every candidate end position
tried by the whole-string driver is at least `startPos + minPatternLength`
away, so no shorter inner-pattern slice is ever tried. -/
theorem c5_min_length (cfg : RegexConfig) (s : List Char) (start end_ startPos : Nat) :
    getMinPatternLength cfg = getMinPatternLengthSpec cfg ∧
    (end_ - start < getMinPatternLength cfg →
      canMatchSinglePatternExactly cfg s start end_ = false) ∧
    (∀ e ∈ possibleEndPositions cfg s startPos, startPos + getMinPatternLength cfg ≤ e) := by
  refine ⟨?_, ?_, ?_⟩
  · unfold getMinPatternLength getMinPatternLengthSpec
    rw [ite_shortestLength, ite_shortestLength, ite_shortestLength]
    exact Nat.max_comm _ _
  · intro h
    simp only [canMatchSinglePatternExactly]
    rw [if_pos h]
  · exact fun e he => mem_possibleEndPositions cfg s startPos e he

theorem c5_min_length_witness :
    getMinPatternLength REGEX_CONFIG = getMinPatternLengthSpec REGEX_CONFIG ∧
    canMatchSinglePatternExactly REGEX_CONFIG ['a'] 0 1 = false :=
  ⟨(c5_min_length REGEX_CONFIG [] 0 0 0).1,
    (c5_min_length REGEX_CONFIG ['a'] 0 1 0).2.1 (by decide)⟩

/-- Counterexample to claim C9: a configuration whose `REPEATABLE_SEQUENCES`
contains the empty string is not refused — `matchPattern` runs on it and
returns an ordinary result (`"aab"` still matches), and the greedy
repeatable matcher simply returns `false` where only the empty token
matches (no rejection mechanism exists anywhere in the program). -/
theorem c9_counterexample :
    matchPattern cfgEmptyRepeat ['a', 'a', 'b'] = true ∧
    canMatchRepeatableSequences cfgEmptyRepeat ['a', 'b'] 0 2 = false := by
  decide

/-- Claim C9 as amended: the implementation performs no construction-time
validation and accepts token collections containing the empty string; the
feared infinite greedy consumption nevertheless cannot happen, because an
empty-token match is falsy and aborts the loop — for any token list
containing the empty token, the greedy loop's result is already stable at
fuel `end_ - pos`, i.e. it reaches a result in finitely many steps. -/
theorem c9_amended (ts : List (List Char)) (_hmem : [] ∈ ts) (s : List Char)
    (end_ pos fuel : Nat) (hfuel : end_ - pos ≤ fuel) :
    repeatLoopF (sortByLenDesc ts) s end_ fuel pos =
      repeatLoopF (sortByLenDesc ts) s end_ (end_ - pos) pos :=
  repeatLoopF_stable (sortByLenDesc ts) s end_ fuel (end_ - pos) pos hfuel (le_refl _)

theorem c9_amended_witness :
    ([] ∈ [([] : List Char)]) ∧
      repeatLoopF (sortByLenDesc [[]]) ['a'] 1 5 0 =
        repeatLoopF (sortByLenDesc [[]]) ['a'] 1 1 0 :=
  ⟨by decide, c9_amended [[]] (by decide) ['a'] 1 0 5 (by decide)⟩

/-- Claim C10: whenever `REPEATABLE_SEQUENCES` is non-empty and
`REPEATABLE_STAR` is `true`, `canMatchRepeatableSequences str start end`
returns `true` for every `start ≥ end` — the greedy loop body is never
entered, so no character is examined; this includes `start` strictly
greater than `end`, which is how an over-consuming earlier segment still
lets `canMatchSinglePatternExactly` report success. -/
theorem c10_vacuous_repeatable (cfg : RegexConfig) (s : List Char) (start end_ : Nat)
    (hne : cfg.REPEATABLE_SEQUENCES ≠ []) (hstar : cfg.STAR_CONFIG.REPEATABLE_STAR = true)
    (hle : end_ ≤ start) :
    canMatchRepeatableSequences cfg s start end_ = true := by
  have hie : cfg.REPEATABLE_SEQUENCES.isEmpty = false := by
    cases h : cfg.REPEATABLE_SEQUENCES with
    | nil => exact absurd h hne
    | cons _ _ => rfl
  have hsub : end_ - start = 0 := Nat.sub_eq_zero_of_le hle
  simp [canMatchRepeatableSequences, hie, hstar, hsub, repeatLoopF, hle]

theorem c10_vacuous_repeatable_witness :
    canMatchRepeatableSequences REGEX_CONFIG ['a'] 5 3 = true :=
  c10_vacuous_repeatable REGEX_CONFIG ['a'] 5 3 (by decide) (by decide) (by decide)

/-- Counterexample to claim C3: `canMatchSinglePatternExactly "aaab" 0 3`
returns `true` although the slice `"aaa"` cannot be consumed exactly — the
alternative segment greedily matches `"ab"` at positions 2–3, consuming the
character at index 3, which lies beyond `end = 3`, after which the
repeatable segment succeeds vacuously. -/
theorem c3_counterexample :
    canMatchSinglePatternExactly REGEX_CONFIG ['a', 'a', 'a', 'b'] 0 3 = true ∧
    canMatchSinglePatternWithinSlice REGEX_CONFIG ['a', 'a', 'a', 'b'] 0 3 = false := by
  decide

/-- Claim C3 as amended: `canMatchSinglePatternExactly` returns `true`
whenever the four segments can consume the slice `[start, end)` exactly
with no leftover (`canMatchSinglePatternWithinSlice`); but the converse
fails — segments 2 and 3 read the full string and may consume characters
at or beyond `end`, with segment 4 then succeeding vacuously, so a `true`
result does not mean the slice is one full expansion of the inner
pattern. -/
theorem c3_amended_within_implies (cfg : RegexConfig) (s : List Char) (start end_ : Nat)
    (h : canMatchSinglePatternWithinSlice cfg s start end_ = true) :
    canMatchSinglePatternExactly cfg s start end_ = true := by
  simp only [canMatchSinglePatternWithinSlice] at h
  by_cases hg : end_ - start < getMinPatternLength cfg
  · rw [if_pos hg] at h
    exact absurd h (by simp)
  · rw [if_neg hg, List.any_eq_true] at h
    obtain ⟨aLen, hmem, hpred⟩ := h
    simp only [canMatchSinglePatternExactly]
    rw [if_neg hg, List.any_eq_true]
    refine ⟨aLen, hmem, ?_⟩
    rw [Bool.and_eq_true, Bool.and_eq_true] at hpred
    obtain ⟨⟨_, halpha⟩, hrest⟩ := hpred
    cases hreq : canMatchRequiredSequence cfg s (start + aLen) with
    | none => rw [hreq] at hrest; exact absurd hrest (by simp)
    | some p2 =>
      rw [hreq] at hrest
      rw [Bool.and_eq_true] at hrest
      obtain ⟨_, hrest⟩ := hrest
      cases halt : canMatchAlternatives cfg s p2 with
      | none => rw [halt] at hrest; exact absurd hrest (by simp)
      | some p3 =>
        rw [halt] at hrest
        rw [Bool.and_eq_true] at hrest
        obtain ⟨_, hrep⟩ := hrest
        rw [Bool.and_eq_true]
        refine ⟨halpha, ?_⟩
        dsimp only
        rw [halt]
        dsimp only
        exact hrep

theorem c3_amended_witness :
    canMatchSinglePatternExactly REGEX_CONFIG ['a', 'a', 'b'] 0 3 = true :=
  c3_amended_within_implies REGEX_CONFIG ['a', 'a', 'b'] 0 3 (by decide)

/-- Counterexample to claim C6: in `cfgDegen` (no required tokens, no
alternative tokens, all stars on) the combined minimum length of the other
three segments is 0, so for the slice `[0, 2)` the claim demands that every
length 0, 1, 2 be tried for segment 1; but the bound actually used is
floored at 1, only `[0, 1]` is tried, and the omission is observable:
`"ab"` is rejected although segment 1 could consume both characters and
the starred repeatable segment would then accept the empty remainder. -/
theorem c6_counterexample :
    minOtherThreeSegments cfgDegen = 0 ∧
    2 - minOtherThreeSegments cfgDegen = 2 ∧
    alphabetLengthRange cfgDegen 2 = [0, 1] ∧
    canMatchSinglePatternExactly cfgDegen ['a', 'b'] 0 2 = false ∧
    canMatchAlphabetStar cfgDegen ['a', 'b'] 0 2 = true ∧
    canMatchRepeatableSequences cfgDegen ['a', 'b'] 2 2 = true := by
  decide

/-- Claim C6 as amended: when `ALPHABET_STAR` is `true` the candidate
lengths tried for segment 1 are exactly the integers from 0 up to
`patternLength - getMinPatternLength` (the floored minimum of §4.1, which
equals the combined minimum of the other three segments except when that
combined minimum is 0, in which case the floor of 1 applies), in strictly
ascending order; when `ALPHABET_STAR` is `false` the single candidate
length 1 is tried. -/
theorem c6_amended (cfg : RegexConfig) (patternLength : Nat) :
    (cfg.STAR_CONFIG.ALPHABET_STAR = true →
      (∀ k : Nat, k ∈ alphabetLengthRange cfg patternLength ↔
        k ≤ patternLength - getMinPatternLength cfg) ∧
      (alphabetLengthRange cfg patternLength).Pairwise (· < ·)) ∧
    (cfg.STAR_CONFIG.ALPHABET_STAR = false →
      alphabetLengthRange cfg patternLength = [1]) := by
  constructor
  · intro hstar
    constructor
    · intro k
      simp [alphabetLengthRange, hstar, Nat.lt_succ_iff]
    · simp only [alphabetLengthRange, hstar, Bool.not_true, Bool.false_eq_true, if_false]
      exact List.pairwise_lt_range _
  · intro hstar
    simp [alphabetLengthRange, hstar]

theorem c6_amended_witness : 2 ∈ alphabetLengthRange REGEX_CONFIG 5 :=
  (((c6_amended REGEX_CONFIG 5).1 rfl).1 2).mpr (by decide)

/-- Claim C7: an input containing a character outside the alphabet makes
`matchPattern` return `false` (validation failure, not a crash); with an
empty alphabet every non-empty string fails `validateInput`; and with an
empty alphabet and the outer star enabled, the empty string is the only
input on which `matchPattern` returns `true`. -/
theorem c7_validation (cfg : RegexConfig) (s : List Char) :
    ((∃ c ∈ s, c ∉ cfg.ALPHABET) → matchPattern cfg s = false) ∧
    (cfg.ALPHABET = [] → s ≠ [] → validateInput cfg s = false) ∧
    (cfg.ALPHABET = [] → cfg.STAR_CONFIG.PATTERN_STAR = true →
      (matchPattern cfg s = true ↔ s = [])) := by
  have hval : (∃ c ∈ s, c ∉ cfg.ALPHABET) → validateInput cfg s = false := by
    rintro ⟨c, hc, hcn⟩
    simp only [validateInput]
    by_cases ha : cfg.ALPHABET.isEmpty
    · rw [if_pos ha]
      cases s with
      | nil => simp at hc
      | cons _ _ => rfl
    · rw [if_neg ha]
      simp only [List.all_eq_false]
      exact ⟨c, hc, by simp [isValidAlphabetChar, ha, hcn]⟩
  refine ⟨fun h => ?_, fun ha hs => ?_, fun ha hstar => ?_⟩
  · simp [matchPattern, hval h]
  · cases s with
    | nil => exact absurd rfl hs
    | cons c cs => simp [validateInput, ha]
  · constructor
    · intro hm
      by_contra hne
      have hv : validateInput cfg s = false := by
        cases s with
        | nil => exact absurd rfl hne
        | cons c cs => simp [validateInput, ha]
      simp [matchPattern, hv] at hm
    · rintro rfl
      simp [matchPattern, validateInput, ha, hstar]

theorem c7_validation_witness :
    matchPattern REGEX_CONFIG ['c'] = false ∧
    validateInput { REGEX_CONFIG with ALPHABET := [] } ['a'] = false ∧
    matchPattern { REGEX_CONFIG with ALPHABET := [] } [] = true :=
  ⟨(c7_validation REGEX_CONFIG ['c']).1 (by decide),
    (c7_validation { REGEX_CONFIG with ALPHABET := [] } ['a']).2.1 rfl (by decide),
    ((c7_validation { REGEX_CONFIG with ALPHABET := [] } []).2.2 rfl rfl).mpr rfl⟩

/-- Claim C8: the required-token and alternative-token matchers each
return the position unchanged when their collection is empty; the sentinel
(`none`, embedding `-1`) when no configured token matches literally at the
position; and otherwise the position advanced by the length of a longest
matching token (well-formed configurations: no zero-length tokens, which
the spec rules out as construction-time contract violations). -/
theorem c8_token_matchers (cfg : RegexConfig) (s : List Char) (pos : Nat)
    (hreq : ∀ t ∈ cfg.REQUIRED_SEQUENCE, t ≠ [])
    (halts : ∀ t ∈ cfg.ALTERNATIVE_OPTIONS, t ≠ []) :
    (cfg.REQUIRED_SEQUENCE = [] → canMatchRequiredSequence cfg s pos = some pos) ∧
    (cfg.REQUIRED_SEQUENCE ≠ [] →
      (∀ t ∈ cfg.REQUIRED_SEQUENCE, sliceMatches s pos t = false) →
      canMatchRequiredSequence cfg s pos = none) ∧
    (∀ t0 ∈ cfg.REQUIRED_SEQUENCE, sliceMatches s pos t0 = true →
      ∃ u ∈ cfg.REQUIRED_SEQUENCE, sliceMatches s pos u = true ∧
        (∀ v ∈ cfg.REQUIRED_SEQUENCE, sliceMatches s pos v = true → v.length ≤ u.length) ∧
        canMatchRequiredSequence cfg s pos = some (pos + u.length)) ∧
    (cfg.ALTERNATIVE_OPTIONS = [] → canMatchAlternatives cfg s pos = some pos) ∧
    (cfg.ALTERNATIVE_OPTIONS ≠ [] →
      (∀ t ∈ cfg.ALTERNATIVE_OPTIONS, sliceMatches s pos t = false) →
      canMatchAlternatives cfg s pos = none) ∧
    (∀ t0 ∈ cfg.ALTERNATIVE_OPTIONS, sliceMatches s pos t0 = true →
      ∃ u ∈ cfg.ALTERNATIVE_OPTIONS, sliceMatches s pos u = true ∧
        (∀ v ∈ cfg.ALTERNATIVE_OPTIONS, sliceMatches s pos v = true → v.length ≤ u.length) ∧
        canMatchAlternatives cfg s pos = some (pos + u.length)) :=
  ⟨fun h => tokenStep_of_empty _ s pos h,
    fun hne h => tokenStep_of_no_match hne h,
    fun _ ht0 hm => tokenStep_longest hreq ht0 hm,
    fun h => tokenStep_of_empty _ s pos h,
    fun hne h => tokenStep_of_no_match hne h,
    fun _ ht0 hm => tokenStep_longest halts ht0 hm⟩

theorem c8_token_matchers_witness :
    canMatchRequiredSequence REGEX_CONFIG ['b'] 0 = none ∧
    canMatchAlternatives REGEX_CONFIG ['a'] 0 = none :=
  ⟨(c8_token_matchers REGEX_CONFIG ['b'] 0 (by decide) (by decide)).2.1
      (by decide) (by decide),
    (c8_token_matchers REGEX_CONFIG ['a'] 0 (by decide) (by decide)).2.2.2.2.1
      (by decide) (by decide)⟩

end Automata
